import Mathlib

/-!
# A shallow embedding of `torch/utils/_pytree.py`

We model the pytree utility module: nested Python data structures built from
the registered container types (`dict`, `list`, `tuple`) with arbitrary
("opaque") leaf values, the `TreeSpec` structural descriptor, and the three
traversal engines `tree_flatten`, `tree_unflatten` and
`_broadcast_to_and_flatten`.

Modelling conventions:
* Python dict keys are modelled as `String`; a Python `dict` is its ordered
  list of key/value entries (insertion order, which is what `d.values()` and
  `list(d.keys())` expose).  Real Python dicts never hold duplicate keys, so
  a well-formedness predicate `WF` marks the Lean values that correspond to
  actual Python values.
* A leaf is any value whose runtime type has no entry in `SUPPORTED_NODES`;
  all such values are collapsed into the `PyTree.leaf` constructor with a
  payload of an arbitrary type `α`.
* `TreeSpec.__init__` stores `typ`, `context`, `children_specs` and derives
  `num_leaves`; `LeafSpec.__init__` overrides `num_leaves = 1` and stores
  `type = None`, `context = None`, `children_specs = []`.  We keep the two
  variants as constructors and keep `num_leaves` derived, exactly as the
  constructors compute it.  The `typ` field may be any Python type object;
  types other than the three registered ones are collapsed into
  `PyType.unregistered` (tagged so that distinct unregistered types stay
  distinct).
* Functions that can raise return `Except PyErr _`; each `PyErr`
  constructor corresponds to one concrete Python exception site.
-/

/-- The Python type object stored in a `TreeSpec`: one of the three types
registered in `SUPPORTED_NODES`, or any other (unregistered) type. -/
inductive PyType where
  | dict
  | list
  | tuple
  | unregistered (id : Nat)
deriving DecidableEq, Repr

/-- A Python value from the pytree universe: nested `dict` / `list` /
`tuple` containers with opaque leaves of type `α`. -/
inductive PyTree (α : Type) where
  | leaf (a : α)
  | dict (entries : List (String × PyTree α))
  | list (xs : List (PyTree α))
  | tuple (xs : List (PyTree α))

/-- Exceptions raised by the Python code, one constructor per raise site. -/
inductive PyErr where
  /-- `ValueError`: `spec` is not an instance of `TreeSpec`. -/
  | invalidSpecKind
  /-- `ValueError`: `values` has length `actual` but the spec holds
  `expected` items. -/
  | leafCountMismatch (actual : Nat) (expected : Nat)
  /-- `KeyError`: `SUPPORTED_NODES[spec.type]` lookup on an unregistered
  type. -/
  | keyError
  /-- `TypeError`: `zip(None, values)` inside `_dict_unflatten` when a
  dict spec carries a `None` context. -/
  | typeError
  /-- `IndexError`: `values[0]` on an empty list. -/
  | indexError
  /-- `AssertionError`: a failed `assert` statement. -/
  | assertionError
deriving DecidableEq, Repr

/-- `_is_leaf(pytree)`: true iff the runtime type of the value has no entry
in `SUPPORTED_NODES` (only `dict`, `list` and `tuple` are registered). -/
def _is_leaf {α : Type} : PyTree α → Bool
  | .leaf _ => true
  | .dict _ => false
  | .list _ => false
  | .tuple _ => false

/-- The `TreeSpec` structural descriptor.  `leaf` is `LeafSpec()`; `node typ
context children_specs` is `TreeSpec(typ, context, children_specs)`.  The
`context` is `None` or a list of dict keys (the two context shapes the
registered flatten functions produce). -/
inductive TreeSpec where
  | leaf
  | node (typ : PyType) (context : Option (List String)) (children_specs : List TreeSpec)

mutual
/-- `spec.num_leaves`: derived by `TreeSpec.__init__` as
`sum([spec.num_leaves for spec in children_specs])`, overridden to `1` by
`LeafSpec.__init__`. -/
def TreeSpec.num_leaves : TreeSpec → Nat
  | .leaf => 1
  | .node _ _ children_specs => TreeSpec.sumNumLeaves children_specs

/-- `sum([spec.num_leaves for spec in specs])`. -/
def TreeSpec.sumNumLeaves : List TreeSpec → Nat
  | [] => 0
  | s :: rest => s.num_leaves + TreeSpec.sumNumLeaves rest
end

mutual
/-- `tree_flatten(pytree)`: recursively decompose a value into its list of
leaves and a `TreeSpec`.  Containers are decomposed by the registered
flatten functions: `_dict_flatten(d) = (d.values(), list(d.keys()))`,
`_list_flatten(d) = (d, None)`, `_tuple_flatten(d) = (list(d), None)`. -/
def tree_flatten {α : Type} : PyTree α → List (PyTree α) × TreeSpec
  | .leaf a => ([.leaf a], .leaf)
  | .dict entries =>
    let r := flattenEntries entries
    (r.1, .node .dict (some (entries.map Prod.fst)) r.2)
  | .list xs =>
    let r := flattenChildren xs
    (r.1, .node .list none r.2)
  | .tuple xs =>
    let r := flattenChildren xs
    (r.1, .node .tuple none r.2)

/-- The loop body of `tree_flatten` over a dict's children (`d.values()`):
flatten each child in order, concatenating leaf lists and collecting child
specs. -/
def flattenEntries {α : Type} : List (String × PyTree α) → List (PyTree α) × List TreeSpec
  | [] => ([], [])
  | (_, v) :: rest =>
    let r := tree_flatten v
    let rs := flattenEntries rest
    (r.1 ++ rs.1, r.2 :: rs.2)

/-- The loop body of `tree_flatten` over a list's / tuple's children. -/
def flattenChildren {α : Type} : List (PyTree α) → List (PyTree α) × List TreeSpec
  | [] => ([], [])
  | x :: rest =>
    let r := tree_flatten x
    let rs := flattenChildren rest
    (r.1 ++ rs.1, r.2 :: rs.2)
end

/-- The decomposition `flatten_fn(pytree).0` (the ordered children) that
`SUPPORTED_NODES[type(pytree)].flatten_fn` returns for a container:
`d.values()` for dicts, the elements for lists and tuples.  (Unused for
leaves.) -/
def PyTree.childrenOf {α : Type} : PyTree α → List (PyTree α)
  | .leaf _ => []
  | .dict entries => entries.map Prod.snd
  | .list xs => xs
  | .tuple xs => xs

/-- The context `flatten_fn(pytree).1`: `list(d.keys())` for dicts, `None`
for lists and tuples.  (Unused for leaves.) -/
def PyTree.contextOf {α : Type} : PyTree α → Option (List String)
  | .dict entries => some (entries.map Prod.fst)
  | _ => none

/-- `type(pytree)` restricted to the container case: the registered type of
a non-leaf value (`none` for a leaf, whose type is unregistered). -/
def PyTree.typeOf {α : Type} : PyTree α → Option PyType
  | .leaf _ => none
  | .dict _ => some .dict
  | .list _ => some .list
  | .tuple _ => some .tuple

/-- `spec.type`: `None` for a `LeafSpec` (modelled as `none`), the stored
type for an internal node. -/
def TreeSpec.typeOf : TreeSpec → Option PyType
  | .leaf => none
  | .node typ _ _ => some typ

/-- `spec.context`: `None` for a `LeafSpec`, the stored context
otherwise. -/
def TreeSpec.contextOf : TreeSpec → Option (List String)
  | .leaf => none
  | .node _ context _ => context

/-- `spec.children_specs`. -/
def TreeSpec.childrenOf : TreeSpec → List TreeSpec
  | .leaf => []
  | .node _ _ children_specs => children_specs

mutual
/-- `TreeSpec.__eq__`: `self.type == other.type and self.context ==
other.context and self.children_specs == other.children_specs and
self.num_leaves == other.num_leaves` (Python list equality on
`children_specs` is length equality plus elementwise `__eq__`). -/
def TreeSpec.pyEq : TreeSpec → TreeSpec → Bool
  | .leaf, b =>
    decide (TreeSpec.leaf.typeOf = b.typeOf)
      && decide (TreeSpec.leaf.contextOf = b.contextOf)
      && b.childrenOf.isEmpty
      && decide (TreeSpec.leaf.num_leaves = b.num_leaves)
  | .node typ context children_specs, b =>
    decide ((TreeSpec.node typ context children_specs).typeOf = b.typeOf)
      && decide ((TreeSpec.node typ context children_specs).contextOf = b.contextOf)
      && TreeSpec.pyEqList children_specs b.childrenOf
      && decide ((TreeSpec.node typ context children_specs).num_leaves = b.num_leaves)

/-- Python `==` on two lists of `TreeSpec`s. -/
def TreeSpec.pyEqList : List TreeSpec → List TreeSpec → Bool
  | [], [] => true
  | a :: as_, b :: bs => TreeSpec.pyEq a b && TreeSpec.pyEqList as_ bs
  | _, _ => false
end

/-- One step of Python dict insertion: `d[k] = v` on a dict represented as
its entry list — an existing key keeps its position and gets the new value,
a new key is appended. -/
def dictInsert {α : Type} : List (String × PyTree α) → String → PyTree α → List (String × PyTree α)
  | [], k, v => [(k, v)]
  | (k', v') :: rest, k, v =>
    if k' = k then (k, v) :: rest else (k', v') :: dictInsert rest k v

/-- `_dict_unflatten(values, context) = {key: value for key, value in
zip(context, values)}`: build a dict by inserting the zipped pairs in
order (`zip` truncates to the shorter argument; a repeated key keeps its
first position and takes the later value). -/
def _dict_unflatten {α : Type} (values : List (PyTree α)) (context : List String) : PyTree α :=
  .dict ((List.zip context values).foldl (fun d kv => dictInsert d kv.1 kv.2) [])

/-- `_list_unflatten(values, context) = list(values)`. -/
def _list_unflatten {α : Type} (values : List (PyTree α)) : PyTree α := .list values

/-- `_tuple_unflatten(values, context) = tuple(values)`. -/
def _tuple_unflatten {α : Type} (values : List (PyTree α)) : PyTree α := .tuple values

mutual
/-- `tree_unflatten(values, spec)` for `spec` already known to be a
`TreeSpec` instance (see `tree_unflattenDyn` for the `isinstance` check).
Mirrors the source order: leaf-count check, `LeafSpec` case returning
`values[0]`, `SUPPORTED_NODES[spec.type]` lookup, the slicing loop over
`children_specs`, and finally `unflatten_fn(child_pytrees, spec.context)`. -/
def tree_unflatten {α : Type} (values : List (PyTree α)) (spec : TreeSpec) :
    Except PyErr (PyTree α) :=
  if values.length ≠ spec.num_leaves then
    .error (.leafCountMismatch values.length spec.num_leaves)
  else
    match spec with
    | .leaf =>
      match values with
      | v :: _ => .ok v
      | [] => .error .indexError
    | .node typ context children_specs =>
      match typ with
      | .unregistered _ => .error .keyError
      | .dict => do
        let children ← unflattenChildren values children_specs
        match context with
        | some keys => .ok (_dict_unflatten children keys)
        | none => .error .typeError
      | .list => do
        let children ← unflattenChildren values children_specs
        .ok (_list_unflatten children)
      | .tuple => do
        let children ← unflattenChildren values children_specs
        .ok (_tuple_unflatten children)

/-- The slicing loop of `tree_unflatten`: `values[start:end]` with `end`
advanced by each child's `num_leaves` is the same as repeated
`take`/`drop`. -/
def unflattenChildren {α : Type} (values : List (PyTree α)) :
    List TreeSpec → Except PyErr (List (PyTree α))
  | [] => .ok []
  | c :: rest => do
    let child ← tree_unflatten (values.take c.num_leaves) c
    let others ← unflattenChildren (values.drop c.num_leaves) rest
    .ok (child :: others)
end

/-- A Python value passed where a `TreeSpec` is expected: either an actual
`TreeSpec` instance or any other runtime value. -/
inductive SpecArg (α : Type) where
  | spec (s : TreeSpec)
  | notSpec (v : PyTree α)

/-- `tree_unflatten(values, spec)` including the leading
`isinstance(spec, TreeSpec)` check. -/
def tree_unflattenDyn {α : Type} (values : List (PyTree α)) : SpecArg α → Except PyErr (PyTree α)
  | .notSpec _ => .error .invalidSpecKind
  | .spec s => tree_unflatten values s

mutual
/-- `_broadcast_to_and_flatten(pytree, spec)` after the leading
`assert isinstance(spec, TreeSpec)` (see `broadcastDyn`): a leaf is
repeated `spec.num_leaves` times (`[pytree] * spec.num_leaves`); a
composite against a `LeafSpec`, a type mismatch, a child-count mismatch or
a context mismatch gives `None`; otherwise the children are broadcast
recursively in order and their results concatenated. -/
def _broadcast_to_and_flatten {α : Type} (pytree : PyTree α) (spec : TreeSpec) :
    Option (List (PyTree α)) :=
  if _is_leaf pytree then
    some (List.replicate spec.num_leaves pytree)
  else
    match spec with
    | .leaf => none
    | .node typ context children_specs =>
      if pytree.typeOf ≠ some typ then
        none
      else if pytree.childrenOf.length ≠ children_specs.length
          ∨ pytree.contextOf ≠ context then
        none
      else
        broadcastChildren pytree.childrenOf children_specs

/-- The loop of `_broadcast_to_and_flatten` over
`zip(child_pytrees, spec.children_specs)`: stop at the first `None`,
otherwise concatenate the flat results in order. -/
def broadcastChildren {α : Type} : List (PyTree α) → List TreeSpec → Option (List (PyTree α))
  | _, [] => some []
  | [], _ :: _ => some []
  | child :: cr, child_spec :: sr => do
    let flat ← _broadcast_to_and_flatten child child_spec
    let rest ← broadcastChildren cr sr
    some (flat ++ rest)
end

/-- `_broadcast_to_and_flatten(pytree, spec)` including the leading
`assert isinstance(spec, TreeSpec)`, which raises `AssertionError` on any
argument that is not a `TreeSpec`. -/
def broadcastDyn {α : Type} (pytree : PyTree α) : SpecArg α → Except PyErr (Option (List (PyTree α)))
  | .notSpec _ => .error .assertionError
  | .spec s => .ok (_broadcast_to_and_flatten pytree s)

/-- The Lean values of type `PyTree α` that correspond to actual Python
values: every `dict` node has pairwise-distinct keys (a Python `dict` can
never hold a duplicate key). -/
inductive WF {α : Type} : PyTree α → Prop
  | leaf (a : α) : WF (.leaf a)
  | dict (entries : List (String × PyTree α)) :
      (entries.map Prod.fst).Nodup → (∀ e ∈ entries, WF e.2) → WF (.dict entries)
  | list (xs : List (PyTree α)) : (∀ x ∈ xs, WF x) → WF (.list xs)
  | tuple (xs : List (PyTree α)) : (∀ x ∈ xs, WF x) → WF (.tuple xs)

/-- The specs that arise from a real decomposition (the image of
`tree_flatten` on well-formed values): dict nodes carry one distinct key
per child, list and tuple nodes carry a `None` context, and every type is
registered. -/
inductive ValidSpec : TreeSpec → Prop
  | leaf : ValidSpec .leaf
  | dict (keys : List String) (children_specs : List TreeSpec) :
      keys.Nodup → keys.length = children_specs.length →
      (∀ c ∈ children_specs, ValidSpec c) →
      ValidSpec (.node .dict (some keys) children_specs)
  | list (children_specs : List TreeSpec) :
      (∀ c ∈ children_specs, ValidSpec c) →
      ValidSpec (.node .list none children_specs)
  | tuple (children_specs : List TreeSpec) :
      (∀ c ∈ children_specs, ValidSpec c) →
      ValidSpec (.node .tuple none children_specs)

/-- The specs on which `tree_unflatten`'s recursion can run the registered
`unflatten_fn`s without raising: every node type is registered and every
dict node carries a list context (so `zip(context, values)` is legal).
Weaker than `ValidSpec`: key counts, duplicate keys and list/tuple
contexts are unconstrained because `zip` truncates and
`_list_unflatten` / `_tuple_unflatten` ignore their context. -/
inductive RegisteredSpec : TreeSpec → Prop
  | leaf : RegisteredSpec .leaf
  | dict (keys : List String) (children_specs : List TreeSpec) :
      (∀ c ∈ children_specs, RegisteredSpec c) →
      RegisteredSpec (.node .dict (some keys) children_specs)
  | list (context : Option (List String)) (children_specs : List TreeSpec) :
      (∀ c ∈ children_specs, RegisteredSpec c) →
      RegisteredSpec (.node .list context children_specs)
  | tuple (context : Option (List String)) (children_specs : List TreeSpec) :
      (∀ c ∈ children_specs, RegisteredSpec c) →
      RegisteredSpec (.node .tuple context children_specs)

mutual
/-- Modelled from the spec: the left-to-right depth-first pre-order
traversal of a value's leaf values ("concatenation order of leaves is a
fixed pre-order (left-to-right, depth-first) traversal of the value's
structure").  Stated independently of `tree_flatten` so that the order
guarantee of the Flatten Engine is a real refinement theorem. -/
def leavesOf {α : Type} : PyTree α → List (PyTree α)
  | .leaf a => [.leaf a]
  | .dict entries => leavesOfEntries entries
  | .list xs => leavesOfChildren xs
  | .tuple xs => leavesOfChildren xs

/-- Pre-order traversal over a dict's entries, children left to right. -/
def leavesOfEntries {α : Type} : List (String × PyTree α) → List (PyTree α)
  | [] => []
  | (_, v) :: rest => leavesOf v ++ leavesOfEntries rest

/-- Pre-order traversal over a list's / tuple's children, left to right. -/
def leavesOfChildren {α : Type} : List (PyTree α) → List (PyTree α)
  | [] => []
  | x :: rest => leavesOf x ++ leavesOfChildren rest
end

/-- Is this spec node a `LeafSpec`? -/
def TreeSpec.isLeafSpec : TreeSpec → Bool
  | .leaf => true
  | .node _ _ _ => false

mutual
/-- All nodes of the subtree rooted at a spec (the node itself and,
recursively, every node of every child spec). -/
def TreeSpec.subtreeNodes : TreeSpec → List TreeSpec
  | .leaf => [.leaf]
  | .node typ context children_specs =>
    .node typ context children_specs :: TreeSpec.subtreeNodesList children_specs

/-- All subtree nodes of a list of specs, concatenated in order. -/
def TreeSpec.subtreeNodesList : List TreeSpec → List TreeSpec
  | [] => []
  | s :: rest => s.subtreeNodes ++ TreeSpec.subtreeNodesList rest
end

/-! ## Helper lemmas -/

theorem sumNumLeaves_eq_sum (l : List TreeSpec) :
    TreeSpec.sumNumLeaves l = (l.map TreeSpec.num_leaves).sum := by
  induction l with
  | nil => rfl
  | cons s rest ih => simp [TreeSpec.sumNumLeaves, ih]

theorem num_leaves_eq_leafSpec_count (s : TreeSpec) :
    s.num_leaves = s.subtreeNodes.countP TreeSpec.isLeafSpec := by
  refine TreeSpec.subtreeNodes.induct
    (fun s => s.num_leaves = s.subtreeNodes.countP TreeSpec.isLeafSpec)
    (fun l => TreeSpec.sumNumLeaves l
      = (TreeSpec.subtreeNodesList l).countP TreeSpec.isLeafSpec)
    rfl ?_ rfl ?_ s
  · intro typ context children_specs ih
    simpa [TreeSpec.num_leaves, TreeSpec.subtreeNodes, TreeSpec.isLeafSpec,
      List.countP_cons] using ih
  · intro s rest ih1 ih2
    simp [TreeSpec.sumNumLeaves, TreeSpec.subtreeNodesList, List.countP_append, ih1, ih2]

theorem flatten_length_eq_num_leaves {α : Type} (x : PyTree α) :
    (tree_flatten x).1.length = (tree_flatten x).2.num_leaves := by
  refine tree_flatten.induct
    (fun (x : PyTree α) => (tree_flatten x).1.length = (tree_flatten x).2.num_leaves)
    (fun xs => (flattenChildren xs).1.length
      = TreeSpec.sumNumLeaves (flattenChildren xs).2)
    (fun es => (flattenEntries es).1.length
      = TreeSpec.sumNumLeaves (flattenEntries es).2)
    ?_ ?_ ?_ ?_ ?_ ?_ ?_ ?_ x
  · intro a; rfl
  · intro entries ih
    simpa [tree_flatten, TreeSpec.num_leaves] using ih
  · intro xs ih
    simpa [tree_flatten, TreeSpec.num_leaves] using ih
  · intro xs ih
    simpa [tree_flatten, TreeSpec.num_leaves] using ih
  · simp [flattenEntries, TreeSpec.sumNumLeaves]
  · intro k v rest ihv ihrest
    simp [flattenEntries, TreeSpec.sumNumLeaves, ihv, ihrest]
  · simp [flattenChildren, TreeSpec.sumNumLeaves]
  · intro x rest ihx ihrest
    simp [flattenChildren, TreeSpec.sumNumLeaves, ihx, ihrest]

theorem flatten_fst_eq_leavesOf {α : Type} (x : PyTree α) :
    (tree_flatten x).1 = leavesOf x := by
  refine tree_flatten.induct
    (fun (x : PyTree α) => (tree_flatten x).1 = leavesOf x)
    (fun xs => (flattenChildren xs).1 = leavesOfChildren xs)
    (fun es => (flattenEntries es).1 = leavesOfEntries es)
    ?_ ?_ ?_ ?_ ?_ ?_ ?_ ?_ x
  · intro a; rfl
  · intro entries ih
    simpa [tree_flatten, leavesOf] using ih
  · intro xs ih
    simpa [tree_flatten, leavesOf] using ih
  · intro xs ih
    simpa [tree_flatten, leavesOf] using ih
  · rfl
  · intro k v rest ihv ihrest
    simp [flattenEntries, leavesOfEntries, ihv, ihrest]
  · rfl
  · intro x rest ihx ihrest
    simp [flattenChildren, leavesOfChildren, ihx, ihrest]

theorem dictInsert_of_not_mem {α : Type} (d : List (String × PyTree α)) (k : String)
    (v : PyTree α) (hk : k ∉ d.map Prod.fst) : dictInsert d k v = d ++ [(k, v)] := by
  induction d with
  | nil => rfl
  | cons e rest ih =>
    obtain ⟨k', v'⟩ := e
    simp only [List.map_cons, List.mem_cons] at hk
    push_neg at hk
    simp [dictInsert, Ne.symm hk.1, ih hk.2]

theorem dictFold_of_nodup {α : Type} (pairs : List (String × PyTree α)) :
    ∀ (acc : List (String × PyTree α)),
      (acc.map Prod.fst ++ pairs.map Prod.fst).Nodup →
      pairs.foldl (fun d kv => dictInsert d kv.1 kv.2) acc = acc ++ pairs := by
  induction pairs with
  | nil => intro acc _; simp
  | cons kv rest ih =>
    intro acc h
    obtain ⟨k, v⟩ := kv
    have hk : k ∉ acc.map Prod.fst := by
      intro hmem
      exact (List.nodup_append.mp (by simpa using h)).2.2 hmem (by simp)
    have h' : ((acc ++ [(k, v)]).map Prod.fst ++ rest.map Prod.fst).Nodup := by
      simpa [List.append_assoc] using h
    simp only [List.foldl_cons, dictInsert_of_not_mem acc k v hk]
    rw [ih (acc ++ [(k, v)]) h']
    simp

theorem flattenChildren_length {α : Type} (xs : List (PyTree α)) :
    (flattenChildren xs).1.length = TreeSpec.sumNumLeaves (flattenChildren xs).2 := by
  induction xs with
  | nil => rfl
  | cons x rest ih =>
    simp [flattenChildren, TreeSpec.sumNumLeaves, flatten_length_eq_num_leaves, ih]

theorem flattenEntries_length {α : Type} (es : List (String × PyTree α)) :
    (flattenEntries es).1.length = TreeSpec.sumNumLeaves (flattenEntries es).2 := by
  induction es with
  | nil => rfl
  | cons e rest ih =>
    obtain ⟨k, v⟩ := e
    simp [flattenEntries, TreeSpec.sumNumLeaves, flatten_length_eq_num_leaves, ih]

theorem zip_map_fst_snd {α : Type} (l : List (String × PyTree α)) :
    List.zip (l.map Prod.fst) (l.map Prod.snd) = l := by
  induction l with
  | nil => rfl
  | cons e rest ih => simp [ih]

theorem unflatten_of_flatten {α : Type} (x : PyTree α) (h : WF x) :
    tree_unflatten (tree_flatten x).1 (tree_flatten x).2 = .ok x := by
  refine tree_flatten.induct
    (fun (x : PyTree α) => WF x →
      tree_unflatten (tree_flatten x).1 (tree_flatten x).2 = .ok x)
    (fun xs => (∀ y ∈ xs, WF y) →
      unflattenChildren (flattenChildren xs).1 (flattenChildren xs).2 = .ok xs)
    (fun es => (∀ e ∈ es, WF e.2) →
      unflattenChildren (flattenEntries es).1 (flattenEntries es).2
        = .ok (es.map Prod.snd))
    ?_ ?_ ?_ ?_ ?_ ?_ ?_ ?_ x h
  · intro a _; rfl
  · intro entries ih hwf
    cases hwf with
    | dict _ hnodup hall =>
      have hlen := flattenEntries_length entries
      have hchildren := ih hall
      simp only [tree_flatten, tree_unflatten, TreeSpec.num_leaves, hlen,
        ne_eq, not_true_eq_false, if_false]
      rw [hchildren]
      show Except.ok (_dict_unflatten (entries.map Prod.snd) (entries.map Prod.fst)) = _
      rw [_dict_unflatten, zip_map_fst_snd entries,
        dictFold_of_nodup entries [] (by simpa using hnodup)]
      simp
  · intro xs ih hwf
    cases hwf with
    | list _ hall =>
      have hlen := flattenChildren_length xs
      have hchildren := ih hall
      simp only [tree_flatten, tree_unflatten, TreeSpec.num_leaves]
      rw [if_neg (by simp [hlen])]
      rw [hchildren]
      rfl
  · intro xs ih hwf
    cases hwf with
    | tuple _ hall =>
      have hlen := flattenChildren_length xs
      have hchildren := ih hall
      simp only [tree_flatten, tree_unflatten, TreeSpec.num_leaves]
      rw [if_neg (by simp [hlen])]
      rw [hchildren]
      rfl
  · intro _; rfl
  · intro k v rest ihv ihrest hwf
    have hv := ihv (hwf (k, v) (by simp))
    have hrest := ihrest (fun e he => hwf e (by simp [he]))
    have hlen := flatten_length_eq_num_leaves v
    simp only [flattenEntries, unflattenChildren]
    rw [← hlen, List.take_left, List.drop_left, hv, hrest]
    rfl
  · intro _; rfl
  · intro y rest ihy ihrest hwf
    have hy := ihy (hwf y (by simp))
    have hrest := ihrest (fun e he => hwf e (by simp [he]))
    have hlen := flatten_length_eq_num_leaves y
    simp only [flattenChildren, unflattenChildren]
    rw [← hlen, List.take_left, List.drop_left, hy, hrest]
    rfl

theorem tree_flatten_of_leaf {α : Type} (v : PyTree α) (h : _is_leaf v = true) :
    tree_flatten v = ([v], .leaf) := by
  cases v with
  | leaf a => rfl
  | dict es => simp [_is_leaf] at h
  | list xs => simp [_is_leaf] at h
  | tuple xs => simp [_is_leaf] at h

theorem flattenEntries_eq_flattenChildren {α : Type} (es : List (String × PyTree α)) :
    flattenEntries es = flattenChildren (es.map Prod.snd) := by
  induction es with
  | nil => rfl
  | cons e rest ih =>
    obtain ⟨k, v⟩ := e
    simp [flattenEntries, flattenChildren, ih]

theorem flattenChildren_snd_length {α : Type} (xs : List (PyTree α)) :
    (flattenChildren xs).2.length = xs.length := by
  induction xs with
  | nil => rfl
  | cons x rest ih => simp [flattenChildren, ih]

theorem unflattenChildren_build {α : Type} (cs : List TreeSpec)
    (H : ∀ c ∈ cs, ∀ vals : List (PyTree α), vals.length = c.num_leaves →
      (∀ v ∈ vals, _is_leaf v = true) →
      ∃ t, tree_unflatten vals c = .ok t ∧ tree_flatten t = (vals, c)) :
    ∀ values : List (PyTree α), values.length = TreeSpec.sumNumLeaves cs →
      (∀ v ∈ values, _is_leaf v = true) →
      ∃ ts, unflattenChildren values cs = .ok ts ∧ flattenChildren ts = (values, cs) := by
  induction cs with
  | nil =>
    intro values hlen _
    have : values = [] := List.eq_nil_of_length_eq_zero (by simpa [TreeSpec.sumNumLeaves] using hlen)
    subst this
    exact ⟨[], rfl, rfl⟩
  | cons c rest ih =>
    intro values hlen hleaves
    have htake : (values.take c.num_leaves).length = c.num_leaves := by
      simp [List.length_take, hlen, TreeSpec.sumNumLeaves]
    have hdrop : (values.drop c.num_leaves).length = TreeSpec.sumNumLeaves rest := by
      simp [List.length_drop, hlen, TreeSpec.sumNumLeaves]
    obtain ⟨t, ht, hft⟩ := H c (by simp) (values.take c.num_leaves) htake
      (fun v hv => hleaves v (List.mem_of_mem_take hv))
    obtain ⟨ts, hts, hfts⟩ := ih (fun c' hc' => H c' (by simp [hc']))
      (values.drop c.num_leaves) hdrop
      (fun v hv => hleaves v (List.mem_of_mem_drop hv))
    refine ⟨t :: ts, ?_, ?_⟩
    · simp only [unflattenChildren, ht, hts]
      rfl
    · simp only [flattenChildren, hft, hfts]
      simp [List.take_append_drop]

theorem unflatten_then_flatten {α : Type} (spec : TreeSpec) (values : List (PyTree α))
    (hvalid : ValidSpec spec) (hlen : values.length = spec.num_leaves)
    (hleaves : ∀ v ∈ values, _is_leaf v = true) :
    ∃ t, tree_unflatten values spec = .ok t ∧ tree_flatten t = (values, spec) := by
  induction hvalid generalizing values with
  | leaf =>
    have h1 : values.length = 1 := by simpa [TreeSpec.num_leaves] using hlen
    obtain ⟨v, hv⟩ : ∃ v, values = [v] := by
      cases values with
      | nil => simp at h1
      | cons v rest =>
        cases rest with
        | nil => exact ⟨v, rfl⟩
        | cons _ _ => simp at h1
    subst hv
    refine ⟨v, rfl, ?_⟩
    exact tree_flatten_of_leaf v (hleaves v (by simp))
  | dict keys children_specs hnodup hkeylen _ ih =>
    obtain ⟨ts, hts, hfts⟩ := unflattenChildren_build children_specs ih values
      (by simpa [TreeSpec.num_leaves] using hlen) hleaves
    have htslen : ts.length = children_specs.length := by
      have := flattenChildren_snd_length ts
      rw [hfts] at this
      exact this.symm
    have hkts : keys.length = ts.length := by rw [htslen]; exact hkeylen
    refine ⟨_dict_unflatten ts keys, ?_, ?_⟩
    · simp only [tree_unflatten, TreeSpec.num_leaves]
      rw [if_neg (by simp [hlen, TreeSpec.num_leaves])]
      rw [hts]
      rfl
    · have hfold : (List.zip keys ts).foldl (fun d kv => dictInsert d kv.1 kv.2) []
          = List.zip keys ts := by
        refine dictFold_of_nodup (List.zip keys ts) [] ?_
        simpa [List.map_fst_zip keys ts (le_of_eq hkts)] using hnodup
      have hmapsnd : (List.zip keys ts).map Prod.snd = ts :=
        List.map_snd_zip keys ts (ge_of_eq hkts)
      have hmapfst : (List.zip keys ts).map Prod.fst = keys :=
        List.map_fst_zip keys ts (le_of_eq hkts)
      rw [_dict_unflatten, hfold]
      show (fun r => (r.1, TreeSpec.node .dict (some ((List.zip keys ts).map Prod.fst)) r.2))
          (flattenEntries (List.zip keys ts)) = _
      rw [flattenEntries_eq_flattenChildren, hmapsnd, hmapfst, hfts]
  | list children_specs _ ih =>
    obtain ⟨ts, hts, hfts⟩ := unflattenChildren_build children_specs ih values
      (by simpa [TreeSpec.num_leaves] using hlen) hleaves
    refine ⟨.list ts, ?_, ?_⟩
    · simp only [tree_unflatten, TreeSpec.num_leaves]
      rw [if_neg (by simp [TreeSpec.num_leaves] at hlen ⊢; omega)]
      rw [hts]
      rfl
    · show (fun r => (r.1, TreeSpec.node .list none r.2)) (flattenChildren ts) = _
      rw [hfts]
  | tuple children_specs _ ih =>
    obtain ⟨ts, hts, hfts⟩ := unflattenChildren_build children_specs ih values
      (by simpa [TreeSpec.num_leaves] using hlen) hleaves
    refine ⟨.tuple ts, ?_, ?_⟩
    · simp only [tree_unflatten, TreeSpec.num_leaves]
      rw [if_neg (by simp [TreeSpec.num_leaves] at hlen ⊢; omega)]
      rw [hts]
      rfl
    · show (fun r => (r.1, TreeSpec.node .tuple none r.2)) (flattenChildren ts) = _
      rw [hfts]

theorem unflatten_length_mismatch {α : Type} (values : List (PyTree α)) (spec : TreeSpec)
    (h : values.length ≠ spec.num_leaves) :
    tree_unflatten values spec = .error (.leafCountMismatch values.length spec.num_leaves) := by
  cases spec with
  | leaf => simp [tree_unflatten, h]
  | node typ context children_specs => cases typ <;> simp [tree_unflatten, h]

theorem unflattenChildren_total {α : Type} (cs : List TreeSpec)
    (H : ∀ c ∈ cs, ∀ vals : List (PyTree α), vals.length = c.num_leaves →
      ∃ t, tree_unflatten vals c = .ok t) :
    ∀ values : List (PyTree α), values.length = TreeSpec.sumNumLeaves cs →
      ∃ ts, unflattenChildren values cs = .ok ts := by
  induction cs with
  | nil => intro values _; exact ⟨[], rfl⟩
  | cons c rest ih =>
    intro values hlen
    have htake : (values.take c.num_leaves).length = c.num_leaves := by
      simp [List.length_take, hlen, TreeSpec.sumNumLeaves]
    have hdrop : (values.drop c.num_leaves).length = TreeSpec.sumNumLeaves rest := by
      simp [List.length_drop, hlen, TreeSpec.sumNumLeaves]
    obtain ⟨t, ht⟩ := H c (by simp) (values.take c.num_leaves) htake
    obtain ⟨ts, hts⟩ := ih (fun c' hc' => H c' (by simp [hc'])) (values.drop c.num_leaves) hdrop
    refine ⟨t :: ts, ?_⟩
    simp only [unflattenChildren, ht, hts]
    rfl

theorem unflatten_total_of_registered {α : Type} (spec : TreeSpec)
    (values : List (PyTree α)) (hreg : RegisteredSpec spec)
    (hlen : values.length = spec.num_leaves) :
    ∃ t, tree_unflatten values spec = .ok t := by
  induction hreg generalizing values with
  | leaf =>
    have h1 : values.length = 1 := by simpa [TreeSpec.num_leaves] using hlen
    obtain ⟨v, hv⟩ : ∃ v, values = [v] := by
      cases values with
      | nil => simp at h1
      | cons v rest =>
        cases rest with
        | nil => exact ⟨v, rfl⟩
        | cons _ _ => simp at h1
    subst hv
    exact ⟨v, rfl⟩
  | dict keys children_specs _ ih =>
    obtain ⟨ts, hts⟩ := unflattenChildren_total children_specs ih values
      (by simpa [TreeSpec.num_leaves] using hlen)
    refine ⟨_dict_unflatten ts keys, ?_⟩
    simp only [tree_unflatten, TreeSpec.num_leaves]
    rw [if_neg (by simp [hlen, TreeSpec.num_leaves])]
    rw [hts]
    rfl
  | list context children_specs _ ih =>
    obtain ⟨ts, hts⟩ := unflattenChildren_total children_specs ih values
      (by simpa [TreeSpec.num_leaves] using hlen)
    refine ⟨.list ts, ?_⟩
    simp only [tree_unflatten, TreeSpec.num_leaves]
    rw [if_neg (by simp [hlen, TreeSpec.num_leaves])]
    rw [hts]
    rfl
  | tuple context children_specs _ ih =>
    obtain ⟨ts, hts⟩ := unflattenChildren_total children_specs ih values
      (by simpa [TreeSpec.num_leaves] using hlen)
    refine ⟨.tuple ts, ?_⟩
    simp only [tree_unflatten, TreeSpec.num_leaves]
    rw [if_neg (by simp [hlen, TreeSpec.num_leaves])]
    rw [hts]
    rfl

theorem pyEq_iff_eq (a b : TreeSpec) : TreeSpec.pyEq a b = true ↔ a = b := by
  refine TreeSpec.pyEq.induct
    (fun a b => TreeSpec.pyEq a b = true ↔ a = b)
    (fun as_ bs => TreeSpec.pyEqList as_ bs = true ↔ as_ = bs)
    ?_ ?_ ?_ ?_ ?_ a b
  · intro b
    cases b with
    | leaf => simp [TreeSpec.pyEq, TreeSpec.typeOf, TreeSpec.contextOf, TreeSpec.childrenOf]
    | node typ context children_specs =>
      simp [TreeSpec.pyEq, TreeSpec.typeOf, TreeSpec.contextOf, TreeSpec.childrenOf]
  · intro typ context children_specs b ih
    cases b with
    | leaf => simp [TreeSpec.pyEq, TreeSpec.typeOf, TreeSpec.contextOf, TreeSpec.childrenOf]
    | node typ' context' children_specs' =>
      simp only [TreeSpec.pyEq, TreeSpec.typeOf, TreeSpec.contextOf, TreeSpec.childrenOf,
        TreeSpec.num_leaves, Bool.and_eq_true, decide_eq_true_eq, Option.some.injEq,
        TreeSpec.node.injEq] at ih ⊢
      constructor
      · rintro ⟨⟨⟨h1, h2⟩, h3⟩, _⟩
        exact ⟨h1, h2, ih.mp h3⟩
      · rintro ⟨h1, h2, h3⟩
        subst h1; subst h2
        have := ih.mpr h3
        subst h3
        simp [this]
  · simp [TreeSpec.pyEqList]
  · intro a as_ b bs ih1 ih2
    simp [TreeSpec.pyEqList, ih1, ih2]
  · intro t x hnn hcc
    cases t with
    | nil =>
      cases x with
      | nil => exact (hnn rfl rfl).elim
      | cons b bs => simp [TreeSpec.pyEqList]
    | cons a as_ =>
      cases x with
      | nil => simp [TreeSpec.pyEqList]
      | cons b bs => exact (hcc a as_ b bs rfl rfl).elim

theorem broadcast_of_leaf {α : Type} (v : PyTree α) (h : _is_leaf v = true)
    (spec : TreeSpec) :
    _broadcast_to_and_flatten v spec = some (List.replicate spec.num_leaves v) := by
  cases spec <;> simp [_broadcast_to_and_flatten, h]

theorem broadcast_length {α : Type} (v : PyTree α) (spec : TreeSpec)
    (l : List (PyTree α)) (h : _broadcast_to_and_flatten v spec = some l) :
    l.length = spec.num_leaves := by
  refine _broadcast_to_and_flatten.induct
    (fun (v : PyTree α) spec => ∀ l, _broadcast_to_and_flatten v spec = some l →
      l.length = spec.num_leaves)
    (fun children cs => children.length = cs.length →
      ∀ l, broadcastChildren children cs = some l → l.length = TreeSpec.sumNumLeaves cs)
    ?_ ?_ ?_ ?_ ?_ ?_ ?_ ?_ v spec l h
  · intro t v hleaf l hl
    rw [broadcast_of_leaf v hleaf] at hl
    cases hl
    simp
  · intro v hleaf l hl
    simp [_broadcast_to_and_flatten, Bool.not_eq_true _ ▸ hleaf] at hl
  · intro v hleaf typ context children_specs hty l hl
    rw [_broadcast_to_and_flatten] at hl
    rw [if_neg (by simpa using hleaf), if_pos hty] at hl
    cases hl
  · intro v hleaf typ context children_specs hty hmis l hl
    rw [_broadcast_to_and_flatten] at hl
    rw [if_neg (by simpa using hleaf), if_neg hty, if_pos hmis] at hl
    cases hl
  · intro v hleaf typ context children_specs hty hmis ih l hl
    rw [_broadcast_to_and_flatten] at hl
    rw [if_neg (by simpa using hleaf), if_neg hty, if_neg hmis] at hl
    push_neg at hmis
    simpa [TreeSpec.num_leaves] using ih hmis.1 l hl
  · intro x _ l hl
    cases x <;> (cases hl; simp [TreeSpec.sumNumLeaves])
  · intro c cs hlen
    simp at hlen
  · intro child cr child_spec sr ih1 ih2 hlen l hl
    rw [broadcastChildren] at hl
    cases hflat : _broadcast_to_and_flatten child child_spec with
    | none => rw [hflat] at hl; cases hl
    | some flat =>
      rw [hflat] at hl
      cases hrest : broadcastChildren cr sr with
      | none => rw [hrest] at hl; cases hl
      | some rest =>
        rw [hrest] at hl
        have hl' : some (flat ++ rest) = some l := hl
        cases hl'
        have h1 := ih1 flat hflat
        have h2 := ih2 (by simpa using hlen) rest hrest
        simp [TreeSpec.sumNumLeaves, h1, h2]

theorem broadcastChildren_none_iff {α : Type} (l1 : List (PyTree α)) (l2 : List TreeSpec) :
    broadcastChildren l1 l2 = none
      ↔ none ∈ List.zipWith _broadcast_to_and_flatten l1 l2 := by
  induction l1 generalizing l2 with
  | nil => cases l2 <;> simp [broadcastChildren]
  | cons c cr ih =>
    cases l2 with
    | nil => simp [broadcastChildren]
    | cons s sr =>
      rw [broadcastChildren]
      cases hflat : _broadcast_to_and_flatten c s with
      | none => simp [hflat]
      | some flat =>
        cases hrest : broadcastChildren cr sr with
        | none =>
          simp [hflat, hrest, (ih sr).mp hrest]
        | some rest =>
          have hni := (not_congr (ih sr)).mp (by simp [hrest])
          simp [hflat, hrest, hni]

theorem broadcastChildren_some {α : Type} (l1 : List (PyTree α)) (l2 : List TreeSpec)
    (h : ¬ none ∈ List.zipWith _broadcast_to_and_flatten l1 l2) :
    broadcastChildren l1 l2
      = some ((List.zipWith _broadcast_to_and_flatten l1 l2).filterMap id).flatten := by
  induction l1 generalizing l2 with
  | nil => cases l2 <;> simp [broadcastChildren]
  | cons c cr ih =>
    cases l2 with
    | nil => simp [broadcastChildren]
    | cons s sr =>
      rw [broadcastChildren]
      simp only [List.zipWith_cons_cons, List.mem_cons] at h
      push_neg at h
      cases hflat : _broadcast_to_and_flatten c s with
      | none => exact absurd hflat.symm h.1
      | some flat =>
        rw [ih sr h.2]
        simp [hflat, List.filterMap_cons]

theorem flattenEntries_snd_length {α : Type} (es : List (String × PyTree α)) :
    (flattenEntries es).2.length = es.length := by
  induction es with
  | nil => rfl
  | cons e rest ih =>
    obtain ⟨k, v⟩ := e
    simp [flattenEntries, ih]

theorem validSpec_of_flatten {α : Type} (x : PyTree α) (h : WF x) :
    ValidSpec (tree_flatten x).2 := by
  refine tree_flatten.induct
    (fun (x : PyTree α) => WF x → ValidSpec (tree_flatten x).2)
    (fun xs => (∀ y ∈ xs, WF y) → ∀ c ∈ (flattenChildren xs).2, ValidSpec c)
    (fun es => (∀ e ∈ es, WF e.2) → ∀ c ∈ (flattenEntries es).2, ValidSpec c)
    ?_ ?_ ?_ ?_ ?_ ?_ ?_ ?_ x h
  · intro a _; exact ValidSpec.leaf
  · intro entries ih hwf
    cases hwf with
    | dict _ hnodup hall =>
      exact ValidSpec.dict (entries.map Prod.fst) (flattenEntries entries).2 hnodup
        (by simp [flattenEntries_snd_length]) (ih hall)
  · intro xs ih hwf
    cases hwf with
    | list _ hall => exact ValidSpec.list (flattenChildren xs).2 (ih hall)
  · intro xs ih hwf
    cases hwf with
    | tuple _ hall => exact ValidSpec.tuple (flattenChildren xs).2 (ih hall)
  · intro _ c hc; simp [flattenEntries] at hc
  · intro k v rest ihv ihrest hwf c hc
    simp only [flattenEntries, List.mem_cons] at hc
    rcases hc with hc | hc
    · subst hc; exact ihv (hwf (k, v) (by simp))
    · exact ihrest (fun e he => hwf e (by simp [he])) c hc
  · intro _ c hc; simp [flattenChildren] at hc
  · intro y rest ihy ihrest hwf c hc
    simp only [flattenChildren, List.mem_cons] at hc
    rcases hc with hc | hc
    · subst hc; exact ihy (hwf y (by simp))
    · exact ihrest (fun e he => hwf e (by simp [he])) c hc

/-! ## Claim theorems -/

/-- C1: for every value `x` built only from the registered container types
(`dict`, `list`, `tuple`) and opaque leaves — i.e. every well-formed
pytree — `tree_unflatten` applied to the leaf list and `TreeSpec` produced
by `tree_flatten x` returns a value structurally equal to `x`. -/
theorem pytree_roundtrip {α : Type} (x : PyTree α) (h : WF x) :
    tree_unflatten (tree_flatten x).1 (tree_flatten x).2 = .ok x :=
  unflatten_of_flatten x h

theorem pytree_roundtrip_w :
    WF (PyTree.dict [("a", PyTree.leaf (1 : Int)),
        ("b", PyTree.list [PyTree.leaf 2, PyTree.leaf 3])]) ∧
    tree_unflatten
      (tree_flatten (PyTree.dict [("a", PyTree.leaf (1 : Int)),
        ("b", PyTree.list [PyTree.leaf 2, PyTree.leaf 3])])).1
      (tree_flatten (PyTree.dict [("a", PyTree.leaf (1 : Int)),
        ("b", PyTree.list [PyTree.leaf 2, PyTree.leaf 3])])).2
      = .ok (PyTree.dict [("a", PyTree.leaf (1 : Int)),
        ("b", PyTree.list [PyTree.leaf 2, PyTree.leaf 3])]) := by
  have hwf : WF (PyTree.dict [("a", PyTree.leaf (1 : Int)),
      ("b", PyTree.list [PyTree.leaf 2, PyTree.leaf 3])]) := by
    refine WF.dict _ (by decide) ?_
    intro e he
    simp only [List.mem_cons, List.not_mem_nil, or_false] at he
    rcases he with he | he
    · subst he; exact WF.leaf 1
    · subst he
      refine WF.list _ ?_
      intro y hy
      simp only [List.mem_cons, List.not_mem_nil, or_false] at hy
      rcases hy with hy | hy
      · subst hy; exact WF.leaf 2
      · subst hy; exact WF.leaf 3
  exact ⟨hwf, pytree_roundtrip _ hwf⟩

/-- C2 counterexample: the claim quantifies over every pair
`(leaves, spec)` with `len(leaves) == spec.num_leaves` and `spec` produced
by a real decomposition, but it fails when an element of `leaves` is
itself a container: `LeafSpec` is produced by a real decomposition
(`tree_flatten` of any leaf), `[ [1, 2] ]` has length `1 == num_leaves`,
yet flattening the unflattened result decomposes the inner list, giving
`([1, 2], list-spec)`, not `([[1, 2]], LeafSpec)`. -/
theorem unflatten_then_flatten_cex :
    (tree_flatten (PyTree.leaf (0 : Int))).2 = TreeSpec.leaf ∧
    [PyTree.list [PyTree.leaf (1 : Int), PyTree.leaf 2]].length
      = TreeSpec.leaf.num_leaves ∧
    tree_unflatten [PyTree.list [PyTree.leaf (1 : Int), PyTree.leaf 2]] TreeSpec.leaf
      = .ok (PyTree.list [PyTree.leaf (1 : Int), PyTree.leaf 2]) ∧
    tree_flatten (PyTree.list [PyTree.leaf (1 : Int), PyTree.leaf 2])
      ≠ ([PyTree.list [PyTree.leaf (1 : Int), PyTree.leaf 2]], TreeSpec.leaf) := by
  refine ⟨rfl, rfl, rfl, ?_⟩
  intro hcontra
  exact TreeSpec.noConfusion (congrArg Prod.snd hcontra)

/-- C2 (amended): for every pair `(leaves, spec)` where
`len(leaves) == spec.num_leaves`, `spec` is structurally compatible with a
real decomposition (`ValidSpec`: registered node types, one distinct key
per child at dict nodes, `None` contexts at list/tuple nodes — exactly the
shape `tree_flatten` produces, see `validSpec_of_flatten`), and every
element of `leaves` is itself a leaf value, `tree_flatten
(tree_unflatten leaves spec)` returns exactly `(leaves, spec)`. -/
theorem unflatten_then_flatten_inverse {α : Type} (spec : TreeSpec)
    (values : List (PyTree α)) (hvalid : ValidSpec spec)
    (hlen : values.length = spec.num_leaves)
    (hleaves : ∀ v ∈ values, _is_leaf v = true) :
    ∃ t, tree_unflatten values spec = .ok t ∧ tree_flatten t = (values, spec) :=
  unflatten_then_flatten spec values hvalid hlen hleaves

theorem unflatten_then_flatten_inverse_w :
    ValidSpec (TreeSpec.node .list none [TreeSpec.leaf, TreeSpec.leaf]) ∧
    [PyTree.leaf (1 : Int), PyTree.leaf 2].length
      = (TreeSpec.node .list none [TreeSpec.leaf, TreeSpec.leaf]).num_leaves ∧
    (∀ v ∈ [PyTree.leaf (1 : Int), PyTree.leaf 2], _is_leaf v = true) ∧
    ∃ t, tree_unflatten [PyTree.leaf (1 : Int), PyTree.leaf 2]
        (TreeSpec.node .list none [TreeSpec.leaf, TreeSpec.leaf]) = .ok t ∧
      tree_flatten t = ([PyTree.leaf (1 : Int), PyTree.leaf 2],
        TreeSpec.node .list none [TreeSpec.leaf, TreeSpec.leaf]) := by
  have hvalid : ValidSpec (TreeSpec.node .list none [TreeSpec.leaf, TreeSpec.leaf]) := by
    refine ValidSpec.list _ ?_
    intro c hc
    simp only [List.mem_cons, List.not_mem_nil, or_false] at hc
    rcases hc with hc | hc <;> (subst hc; exact ValidSpec.leaf)
  have hleaves : ∀ v ∈ [PyTree.leaf (1 : Int), PyTree.leaf 2], _is_leaf v = true := by
    intro v hv
    simp only [List.mem_cons, List.not_mem_nil, or_false] at hv
    rcases hv with hv | hv <;> (subst hv; rfl)
  exact ⟨hvalid, rfl, hleaves,
    unflatten_then_flatten_inverse _ _ hvalid rfl hleaves⟩

/-- C3: for every `TreeSpec` (as the constructors derive it),
`num_leaves` equals the number of `LeafSpec` nodes in the subtree rooted
at it, and for every value the leaf list returned by `tree_flatten` has
length equal to the returned spec's `num_leaves`. -/
theorem num_leaves_invariant :
    (∀ s : TreeSpec, s.num_leaves = s.subtreeNodes.countP TreeSpec.isLeafSpec) ∧
    (∀ (α : Type) (x : PyTree α),
      (tree_flatten x).1.length = (tree_flatten x).2.num_leaves) :=
  ⟨num_leaves_eq_leafSpec_count, fun _ x => flatten_length_eq_num_leaves x⟩

/-- C4: `tree_flatten` is total — it is a plain function on all of
`PyTree α`, every value being either a leaf or decomposed by its
registered node definition — and the leaf list it returns is exactly the
left-to-right depth-first pre-order traversal of the input's leaves
(`leavesOf`, modelled from the spec's wording). -/
theorem flatten_is_preorder_traversal :
    ∀ (α : Type) (x : PyTree α), (tree_flatten x).1 = leavesOf x :=
  fun _ x => flatten_fst_eq_leavesOf x

/-- C5 counterexample: a `TreeSpec` whose node type is unregistered (e.g.
`TreeSpec(set, None, [LeafSpec()])`) passes the `isinstance` and
leaf-count checks but then raises `KeyError` at the
`SUPPORTED_NODES[spec.type]` lookup — so it is not true that
`tree_unflatten` never raises beyond `InvalidSpecKind` and
`LeafCountMismatch`. -/
theorem unflatten_error_contract_cex :
    [PyTree.leaf (0 : Int)].length
      = (TreeSpec.node (.unregistered 0) none [TreeSpec.leaf]).num_leaves ∧
    tree_unflatten [PyTree.leaf (0 : Int)]
        (TreeSpec.node (.unregistered 0) none [TreeSpec.leaf])
      = .error .keyError :=
  ⟨rfl, rfl⟩

/-- C5 (amended): `tree_unflatten(values, spec)` fails with
`InvalidSpecKind` exactly when `spec` is not a `TreeSpec`; fails with
`LeafCountMismatch` — reporting both the actual length and the expected
count — when `spec` is a `TreeSpec` and `len(values) != spec.num_leaves`;
both checks run before any reconstruction (they are the first two steps
of the definition).  Provided additionally that every node type in `spec`
is registered and every dict node carries a list context
(`RegisteredSpec`, true of every spec `tree_flatten` produces), no other
failure occurs. -/
theorem unflatten_error_contract :
    (∀ (α : Type) (values : List (PyTree α)) (v : PyTree α),
      tree_unflattenDyn values (.notSpec v) = .error .invalidSpecKind) ∧
    (∀ (α : Type) (values : List (PyTree α)) (s : TreeSpec),
      values.length ≠ s.num_leaves →
      tree_unflattenDyn values (.spec s)
        = .error (.leafCountMismatch values.length s.num_leaves)) ∧
    (∀ (α : Type) (values : List (PyTree α)) (s : TreeSpec),
      RegisteredSpec s → values.length = s.num_leaves →
      ∃ t, tree_unflattenDyn values (.spec s) = .ok t) :=
  ⟨fun _ _ _ => rfl,
   fun _ values s h => unflatten_length_mismatch values s h,
   fun _ values s hreg hlen => unflatten_total_of_registered s values hreg hlen⟩

theorem unflatten_error_contract_w :
    tree_unflattenDyn [PyTree.leaf (0 : Int)] (.notSpec (PyTree.leaf 0))
      = .error .invalidSpecKind ∧
    tree_unflattenDyn [PyTree.leaf (0 : Int), PyTree.leaf 1] (.spec TreeSpec.leaf)
      = .error (.leafCountMismatch 2 1) ∧
    ∃ t, tree_unflattenDyn [PyTree.leaf (0 : Int)] (.spec TreeSpec.leaf) = .ok t :=
  ⟨unflatten_error_contract.1 Int [PyTree.leaf 0] (PyTree.leaf 0),
   unflatten_error_contract.2.1 Int [PyTree.leaf 0, PyTree.leaf 1] TreeSpec.leaf
     (by decide),
   unflatten_error_contract.2.2 Int [PyTree.leaf 0] TreeSpec.leaf
     RegisteredSpec.leaf rfl⟩

/-- C6: `TreeSpec.__eq__` is structural and context-order-sensitive: two
descriptors compare equal iff they agree on variant, container type,
context (by the context's own equality) and, recursively and pairwise, on
children specs — which in this model is exactly propositional equality.
In particular the descriptors of `{"a": 1, "b": 2}` and `{"a": 3, "b": 4}`
are equal, while the descriptor of `{"b": 2, "a": 1}` differs from them
because its key-order context differs. -/
theorem spec_equality_structural :
    (∀ a b : TreeSpec, TreeSpec.pyEq a b = true ↔ a = b) ∧
    TreeSpec.pyEq
      (tree_flatten (PyTree.dict [("a", PyTree.leaf (1 : Int)), ("b", PyTree.leaf 2)])).2
      (tree_flatten (PyTree.dict [("a", PyTree.leaf (3 : Int)), ("b", PyTree.leaf 4)])).2
      = true ∧
    TreeSpec.pyEq
      (tree_flatten (PyTree.dict [("b", PyTree.leaf (2 : Int)), ("a", PyTree.leaf 1)])).2
      (tree_flatten (PyTree.dict [("a", PyTree.leaf (1 : Int)), ("b", PyTree.leaf 2)])).2
      = false :=
  ⟨pyEq_iff_eq, by decide, by decide⟩

/-- C7: broadcasting any leaf value (a value whose runtime type has no
registered entry, i.e. `PyTree.leaf _`) against any `TreeSpec` succeeds
and returns the value repeated `spec.num_leaves` times; in particular
broadcasting `0` against the spec of a two-leaf list returns `[0, 0]`. -/
theorem broadcast_leaf_replicates :
    (∀ (α : Type) (a : α) (spec : TreeSpec),
      _broadcast_to_and_flatten (PyTree.leaf a) spec
        = some (List.replicate spec.num_leaves (PyTree.leaf a))) ∧
    _broadcast_to_and_flatten (PyTree.leaf (0 : Int))
        (tree_flatten (PyTree.list [PyTree.leaf (5 : Int), PyTree.leaf 6])).2
      = some [PyTree.leaf 0, PyTree.leaf 0] :=
  ⟨fun _ a spec => broadcast_of_leaf (PyTree.leaf a) rfl spec, rfl⟩

/-- C8: for a non-leaf value `v`, `_broadcast_to_and_flatten v spec`
returns `None` exactly when `spec` is a `LeafSpec`, or `v`'s container
type differs from `spec`'s type, or `v`'s decomposed child count differs
from `spec`'s child count, or `v`'s decomposed context differs (by
equality) from `spec.context`, or some recursive child broadcast returns
`None`; otherwise it returns the in-order concatenation of the successful
child results. -/
theorem broadcast_composite_contract {α : Type} (v : PyTree α)
    (h : _is_leaf v = false) :
    (∀ spec : TreeSpec, _broadcast_to_and_flatten v spec = none ↔
      (spec = .leaf ∨
        ∃ typ context children_specs, spec = .node typ context children_specs ∧
          (v.typeOf ≠ some typ ∨
            v.childrenOf.length ≠ children_specs.length ∨
            v.contextOf ≠ context ∨
            none ∈ List.zipWith _broadcast_to_and_flatten v.childrenOf children_specs))) ∧
    (∀ typ context children_specs,
      v.typeOf = some typ →
      v.childrenOf.length = children_specs.length →
      v.contextOf = context →
      none ∉ List.zipWith _broadcast_to_and_flatten v.childrenOf children_specs →
      _broadcast_to_and_flatten v (.node typ context children_specs)
        = some ((List.zipWith _broadcast_to_and_flatten v.childrenOf
            children_specs).filterMap id).flatten) := by
  constructor
  · intro spec
    cases spec with
    | leaf => simp [_broadcast_to_and_flatten, h]
    | node typ context children_specs =>
      rw [_broadcast_to_and_flatten, if_neg (by simp [h])]
      by_cases hty : v.typeOf = some typ
      · rw [if_neg (by simp [hty])]
        by_cases hmis : v.childrenOf.length ≠ children_specs.length
            ∨ v.contextOf ≠ context
        · rw [if_pos hmis]
          constructor
          · intro _
            refine Or.inr ⟨typ, context, children_specs, rfl, ?_⟩
            rcases hmis with hm | hm
            · exact Or.inr (Or.inl hm)
            · exact Or.inr (Or.inr (Or.inl hm))
          · intro _; rfl
        · rw [if_neg hmis]
          push_neg at hmis
          rw [broadcastChildren_none_iff]
          constructor
          · intro hmem
            exact Or.inr ⟨typ, context, children_specs, rfl,
              Or.inr (Or.inr (Or.inr hmem))⟩
          · rintro (hleaf | ⟨typ', context', children_specs', heq, hdis⟩)
            · exact TreeSpec.noConfusion hleaf
            · injection heq with h1 h2 h3
              subst h1; subst h2; subst h3
              rcases hdis with hd | hd | hd | hd
              · exact absurd hty hd
              · exact absurd hmis.1 hd
              · exact absurd hmis.2 hd
              · exact hd
      · rw [if_pos hty]
        constructor
        · intro _
          exact Or.inr ⟨typ, context, children_specs, rfl, Or.inl hty⟩
        · intro _; rfl
  · intro typ context children_specs hty hlen hctx hmem
    rw [_broadcast_to_and_flatten, if_neg (by simp [h]), if_neg (by simp [hty]),
      if_neg (by push_neg; exact ⟨hlen, hctx⟩)]
    exact broadcastChildren_some _ _ hmem

theorem broadcast_composite_contract_w :
    _broadcast_to_and_flatten (PyTree.list [PyTree.leaf (1 : Int), PyTree.leaf 2,
        PyTree.leaf 3]) (TreeSpec.node .list none [TreeSpec.leaf, TreeSpec.leaf])
      = none :=
  ((broadcast_composite_contract
      (PyTree.list [PyTree.leaf (1 : Int), PyTree.leaf 2, PyTree.leaf 3]) rfl).1
    (TreeSpec.node .list none [TreeSpec.leaf, TreeSpec.leaf])).mpr
    (Or.inr ⟨.list, none, [TreeSpec.leaf, TreeSpec.leaf], rfl,
      Or.inr (Or.inl (by decide))⟩)

/-- C9 counterexample: `_broadcast_to_and_flatten` opens with
`assert isinstance(spec, TreeSpec)`, so calling it with a second argument
that is not a `TreeSpec` raises `AssertionError` — it is not true that it
never raises for any pair of arguments. -/
theorem broadcast_never_raises_cex :
    broadcastDyn (PyTree.leaf (0 : Int)) (.notSpec (PyTree.leaf 0))
      = .error .assertionError :=
  rfl

/-- C9 (amended): whenever the `spec` argument is an actual `TreeSpec`
instance, `_broadcast_to_and_flatten` never raises — every operation it
performs is total, and `None` is its sole failure signal; the call
produces a result exactly when `spec` is a `TreeSpec` (otherwise the
leading `assert` fires). -/
theorem broadcast_never_raises :
    ∀ (α : Type) (v : PyTree α) (arg : SpecArg α),
      (∃ r, broadcastDyn v arg = .ok r) ↔ ∃ s, arg = .spec s := by
  intro α v arg
  cases arg with
  | spec s => simp [broadcastDyn]
  | notSpec w => simp [broadcastDyn]

/-- C10: whenever `_broadcast_to_and_flatten v spec` returns a list
rather than `None`, that list's length equals `spec.num_leaves`. -/
theorem broadcast_result_length {α : Type} (v : PyTree α) (spec : TreeSpec)
    (l : List (PyTree α)) (h : _broadcast_to_and_flatten v spec = some l) :
    l.length = spec.num_leaves :=
  broadcast_length v spec l h

theorem broadcast_result_length_w :
    _broadcast_to_and_flatten (PyTree.tuple [PyTree.leaf (7 : Int)])
        (TreeSpec.node .tuple none [TreeSpec.leaf]) = some [PyTree.leaf 7] ∧
    [PyTree.leaf (7 : Int)].length
      = (TreeSpec.node .tuple none [TreeSpec.leaf]).num_leaves :=
  ⟨rfl, broadcast_result_length (PyTree.tuple [PyTree.leaf (7 : Int)])
    (TreeSpec.node .tuple none [TreeSpec.leaf]) [PyTree.leaf 7] rfl⟩
